import Mathlib

/-!
Verification of the ytcomet backend (src/backend/app.py) against its
specification. The Python module is shallowly embedded: the global
dictionary download_progress becomes an association list from URL keys to
progress records, time.time() values become explicit rational parameters,
and the external yt-dlp collaborator becomes explicit inputs (an Except
value for each call that can raise, plus a list of progress-hook events
delivered during the download). Python dict records may omit keys; every
read of an optional numeric field in the source goes through .get with
default 0, so a missing numeric field is represented as 0 and records are
total structures.
-/

namespace Ytcomet

/-- A value of the download_progress table for one URL. Fields mirror the
dictionary written by progress_hook (app.py lines 61-68); the reset write
at line 150 only mentions progress and timestamp, all other fields are
read back through .get with default 0, so they are stored here as 0. -/
structure ProgressRecord where
  progress : ℚ
  timestamp : ℚ
  downloaded_bytes : ℕ
  total_bytes : ℕ
  speed : ℚ
  eta : ℚ
deriving Repr, DecidableEq

/-- The global download_progress dictionary (app.py line 21), as an
association list with insertion order; CPython dicts preserve it. -/
abbrev Store : Type := List (String × ProgressRecord)

/-- Dictionary lookup: the record bound to a key, if any. -/
def Store.get? : Store → String → Option ProgressRecord
  | [], _ => none
  | (k', r') :: rest, k => if k' = k then some r' else Store.get? rest k

/-- Dictionary assignment d[k] = r: replaces the binding in place if the
key is present, otherwise appends a new binding. -/
def Store.set : Store → String → ProgressRecord → Store
  | [], k, r => [(k, r)]
  | (k', r') :: rest, k, r =>
      if k' = k then (k, r) :: rest else (k', r') :: Store.set rest k r

/-- List of the keys of a store. -/
def Store.keys (s : Store) : List String := s.map Prod.fst

theorem Store.get_set_self (s : Store) (k : String) (r : ProgressRecord) :
    Store.get? (Store.set s k r) k = some r := by
  induction s with
  | nil => simp [Store.set, Store.get?]
  | cons p rest ih =>
      obtain ⟨k', r'⟩ := p
      by_cases h : k' = k <;> simp [Store.set, Store.get?, h, ih]

theorem Store.get_set_ne (s : Store) (k k' : String) (r : ProgressRecord)
    (h : k ≠ k') : Store.get? (Store.set s k r) k' = Store.get? s k' := by
  induction s with
  | nil => simp [Store.set, Store.get?, h]
  | cons p rest ih =>
      obtain ⟨k0, r0⟩ := p
      by_cases h0 : k0 = k
      · subst h0
        simp [Store.set, Store.get?, h]
      · simp [Store.set, Store.get?, h0, ih]

/-- Age test of the cleanup loop (app.py line 31): strictly older than
1800 seconds. -/
def isExpired (now : ℚ) (r : ProgressRecord) : Bool :=
  decide (now - r.timestamp > 1800)

/-- One sweep of the body of cleanup_progress_data (app.py lines 26-35):
collect the keys whose record is older than 1800 seconds, then delete
each collected key. -/
def cleanup_progress_data (s : Store) (now : ℚ) : Store :=
  let to_remove := (s.filter (fun p => isExpired now p.2)).map Prod.fst
  s.filter (fun p => ! to_remove.contains p.1)

theorem Store.keys_nodup_unique {s : Store} (h : s.keys.Nodup)
    {k : String} {r r' : ProgressRecord}
    (h1 : (k, r) ∈ s) (h2 : (k, r') ∈ s) : r = r' := by
  induction s with
  | nil => cases h1
  | cons p rest ih =>
      simp only [Store.keys, List.map_cons, List.nodup_cons] at h
      rcases List.mem_cons.mp h1 with h1 | h1 <;>
        rcases List.mem_cons.mp h2 with h2 | h2
      · rw [← h1] at h2
        injection h2 with _ hr
        exact hr.symm
      · exfalso
        apply h.1
        rw [← h1]
        simpa using List.mem_map_of_mem Prod.fst h2
      · exfalso
        apply h.1
        rw [← h2]
        simpa using List.mem_map_of_mem Prod.fst h1
      · exact ih h.2 h1 h2

theorem mem_to_remove_iff (s : Store) (now : ℚ) (k : String) :
    ((s.filter (fun p => isExpired now p.2)).map Prod.fst).contains k = true ↔
      ∃ r', (k, r') ∈ s ∧ isExpired now r' = true := by
  constructor
  · intro h
    have hk : k ∈ (s.filter (fun p => isExpired now p.2)).map Prod.fst := by
      simpa using h
    obtain ⟨p, hp, hpk⟩ := List.mem_map.mp hk
    obtain ⟨hps, hpe⟩ := List.mem_filter.mp hp
    exact ⟨p.2, by rw [← hpk]; exact hps, hpe⟩
  · intro ⟨r', hmem, hexp⟩
    have : (k, r') ∈ s.filter (fun p => isExpired now p.2) :=
      List.mem_filter.mpr ⟨hmem, hexp⟩
    simpa using List.mem_map_of_mem Prod.fst this

theorem cleanup_eq_filter (s : Store) (now : ℚ) :
    cleanup_progress_data s now =
      s.filter (fun p =>
        ! ((s.filter (fun q => isExpired now q.2)).map Prod.fst).contains p.1) := rfl

/-- C2: one sweep of the cleanup loop removes exactly the records whose
age exceeds 1800 seconds (strict comparison), leaves every other record
unchanged, and is the identity when no record has expired. -/
theorem cleanup_removes_exactly_expired (s : Store) (now : ℚ)
    (hnd : s.keys.Nodup) :
    (∀ k r, (k, r) ∈ cleanup_progress_data s now ↔
      ((k, r) ∈ s ∧ ¬ now - r.timestamp > 1800)) ∧
    ((∀ p ∈ s, ¬ now - p.2.timestamp > 1800) → cleanup_progress_data s now = s) := by
  constructor
  · intro k r
    rw [cleanup_eq_filter, List.mem_filter]
    constructor
    · rintro ⟨hmem, hnc⟩
      refine ⟨hmem, fun hgt => ?_⟩
      have hc : ((s.filter (fun q => isExpired now q.2)).map Prod.fst).contains k = true :=
        (mem_to_remove_iff s now k).mpr ⟨r, hmem, by simp [isExpired]; exact hgt⟩
      rw [show ((k, r).1 : String) = k from rfl, hc] at hnc
      simp at hnc
    · rintro ⟨hmem, hle⟩
      refine ⟨hmem, ?_⟩
      rw [show ((k, r).1 : String) = k from rfl, Bool.not_eq_true', ← Bool.not_eq_true]
      intro hc
      obtain ⟨r', hmem', hexp'⟩ := (mem_to_remove_iff s now k).mp hc
      have hrr : r = r' := Store.keys_nodup_unique hnd hmem hmem'
      rw [← hrr] at hexp'
      exact hle (by simpa [isExpired] using hexp')
  · intro hall
    have hfil : s.filter (fun q => isExpired now q.2) = [] := by
      apply List.filter_eq_nil_iff.mpr
      intro p hp
      simpa [isExpired] using hall p hp
    rw [cleanup_eq_filter, hfil]
    simp

/-- Store used by the cleanup witness: one record stamped at time 0 and
one at time 1000. -/
def sweepStore : Store :=
  [("a", ⟨10, 0, 0, 0, 0, 0⟩), ("b", ⟨20, 1000, 0, 0, 0, 0⟩)]

/-- C2 witness: the record stamped at 0 survives a sweep at 1799 and is
gone after a sweep at 1801, which keeps the younger record; a sweep that
finds nothing expired changes nothing. -/
theorem cleanup_removes_exactly_expired_witness :
    (("a", (⟨10, 0, 0, 0, 0, 0⟩ : ProgressRecord)) ∈
      cleanup_progress_data sweepStore 1799) ∧
    (("a", (⟨10, 0, 0, 0, 0, 0⟩ : ProgressRecord)) ∉
      cleanup_progress_data sweepStore 1801) ∧
    (("b", (⟨20, 1000, 0, 0, 0, 0⟩ : ProgressRecord)) ∈
      cleanup_progress_data sweepStore 1801) ∧
    cleanup_progress_data sweepStore 100 = sweepStore := by
  have h99 := cleanup_removes_exactly_expired sweepStore 1799 (by decide)
  have h01 := cleanup_removes_exactly_expired sweepStore 1801 (by decide)
  have h100 := cleanup_removes_exactly_expired sweepStore 100 (by decide)
  refine ⟨?_, ?_, ?_, ?_⟩
  · exact (h99.1 "a" _).mpr ⟨by simp [sweepStore], by norm_num⟩
  · intro hmem
    exact ((h01.1 "a" _).mp hmem).2 (by norm_num)
  · exact (h01.1 "b" _).mpr ⟨by simp [sweepStore], by norm_num⟩
  · refine h100.2 ?_
    intro p hp
    simp only [sweepStore] at hp
    rcases List.mem_cons.mp hp with h | h
    · subst h; norm_num
    · rcases List.mem_cons.mp h with h2 | h2
      · subst h2; norm_num
      · exact absurd h2 (List.not_mem_nil p)

/-- Fragment of the info_dict carried by a yt-dlp hook event; the source
reads only its webpage_url entry (app.py line 45). -/
structure InfoDict where
  webpage_url : Option String
deriving Repr, DecidableEq

/-- A yt-dlp progress-hook event dictionary d, restricted to the keys the
hook reads (app.py lines 43-68). Absent keys are represented by none. -/
structure HookEvent where
  status : String
  info_dict : Option InfoDict
  total_bytes : Option ℕ
  downloaded_bytes : Option ℕ
  total_bytes_estimate : Option ℕ
  speed : Option ℚ
  eta : Option ℚ
deriving Repr, DecidableEq

/-- Key under which the hook stores its update (app.py line 45):
d.get with default empty dict, then .get with default the string unknown. -/
def hookKey (d : HookEvent) : String :=
  match d.info_dict with
  | some i => i.webpage_url.getD "unknown"
  | none => "unknown"

/-- Total byte count the hook ends up using (app.py lines 48-52): the
reported total_bytes, except that a falsy value (absent or zero, since
Python tests `not total_bytes`) falls back to total_bytes_estimate with
default 0. -/
def effectiveTotal (d : HookEvent) : ℕ :=
  match d.total_bytes with
  | some n => if n = 0 then d.total_bytes_estimate.getD 0 else n
  | none => d.total_bytes_estimate.getD 0

/-- Read of download_progress[url] on a defaultdict (app.py line 58):
the stored record, or the factory default with progress 0 and the
current time. -/
def getWithDefault (s : Store) (k : String) (now : ℚ) : ProgressRecord :=
  (Store.get? s k).getD ⟨0, now, 0, 0, 0, 0⟩

/-- The progress hook (app.py lines 43-68). Events whose status is not
the string downloading are ignored; otherwise a full record is stored
under hookKey d with the computed percent and the current time. -/
def progress_hook (d : HookEvent) (now : ℚ) (s : Store) : Store :=
  if d.status = "downloading" then
    let url := hookKey d
    let downloaded_bytes := d.downloaded_bytes.getD 0
    let total_bytes := effectiveTotal d
    let percent : ℚ :=
      if total_bytes > 0 then (downloaded_bytes : ℚ) / (total_bytes : ℚ) * 100
      else min 95 ((getWithDefault s url now).progress + 1)
    Store.set s url
      ⟨percent, now, downloaded_bytes, total_bytes, d.speed.getD 0, d.eta.getD 0⟩
  else s

/-- Reading of C1: the total used is the reported one whenever the
total_bytes key is present, and the estimate only when it is absent. -/
def claimedTotal (d : HookEvent) : ℕ :=
  match d.total_bytes with
  | some n => n
  | none => d.total_bytes_estimate.getD 0

/-- Hook event with a present-but-zero total_bytes and a positive
estimate: the code divides by the estimate, the claim predicts the
synthetic min(95, previous + 1) counter. -/
def cexEvent : HookEvent :=
  ⟨"downloading", none, some 0, some 50, some 100, none, none⟩

/-- Store holding a record with progress 10 under the key the hook will
write to. -/
def cexStore : Store := [("unknown", ⟨10, 0, 0, 0, 0, 0⟩)]

/-- C1 counterexample: on cexEvent over cexStore the reported total is
present with value 0, so the claim as stated selects the unknown-total
path and predicts min(95, 10 + 1) = 11; the code falls back to the
estimate 100 and stores 50 / 100 * 100 = 50. -/
theorem progress_hook_percent_cex :
    claimedTotal cexEvent = 0 ∧
    ¬ claimedTotal cexEvent > 0 ∧
    (Store.get? (progress_hook cexEvent 7 cexStore) "unknown").map
      ProgressRecord.progress = some 50 ∧
    (50 : ℚ) ≠ min 95 (10 + 1) := by
  refine ⟨rfl, by decide, ?_, by norm_num⟩
  simp only [progress_hook, cexEvent, cexStore, hookKey, effectiveTotal]
  norm_num [Store.set, Store.get?]

/-- C1 amended: for a downloading event the stored percent is
downloaded / total * 100 with total the effective total (the reported
total when it is present and nonzero, the estimate when the reported
total is absent or zero); when the effective total is 0 the stored
percent is min(95, previous + 1), hence at most 95 and never 100. -/
theorem progress_hook_percent (d : HookEvent) (now : ℚ) (s : Store)
    (hst : d.status = "downloading") :
    ∃ r, Store.get? (progress_hook d now s) (hookKey d) = some r ∧
      (effectiveTotal d > 0 →
        r.progress = (d.downloaded_bytes.getD 0 : ℚ) / (effectiveTotal d : ℚ) * 100) ∧
      (effectiveTotal d = 0 →
        r.progress = min 95 ((getWithDefault s (hookKey d) now).progress + 1) ∧
        r.progress ≤ 95) := by
  unfold progress_hook
  rw [if_pos hst]
  by_cases htot : effectiveTotal d > 0
  · refine ⟨_, Store.get_set_self _ _ _, fun _ => ?_, fun h0 => absurd h0 (by omega)⟩
    simp [htot]
  · have h0 : effectiveTotal d = 0 := by omega
    refine ⟨_, Store.get_set_self _ _ _, fun hgt => absurd hgt htot, fun _ => ?_⟩
    constructor
    · simp [htot]
    · simp only [htot, if_false]
      exact min_le_left _ _

/-- C1 amended witness at a concrete downloading event whose effective
total is positive. -/
theorem progress_hook_percent_witness :
    effectiveTotal cexEvent > 0 ∧
    (Store.get? (progress_hook cexEvent 7 cexStore) (hookKey cexEvent)).map
        ProgressRecord.progress =
      some ((cexEvent.downloaded_bytes.getD 0 : ℚ) /
        (effectiveTotal cexEvent : ℚ) * 100) := by
  have htot : effectiveTotal cexEvent > 0 := by decide
  obtain ⟨r, hget, hpos, _⟩ := progress_hook_percent cexEvent 7 cexStore rfl
  rw [hget]
  exact ⟨htot, by simp [hpos htot]⟩

/-- C10: a downloading event is stored under the webpage_url taken from
the info_dict of the event, with the literal key unknown when the field
is absent; whenever that key differs from a key u (such as the raw
requested URL polled by the progress endpoint), the record under u is
untouched and the write lands under the hook key. -/
theorem progress_hook_uses_webpage_url (d : HookEvent) (now : ℚ) (s : Store)
    (u : String) (hst : d.status = "downloading") :
    ((∀ i, d.info_dict = some i → hookKey d = i.webpage_url.getD "unknown") ∧
     (d.info_dict = none → hookKey d = "unknown")) ∧
    (hookKey d ≠ u →
      Store.get? (progress_hook d now s) u = Store.get? s u ∧
      (Store.get? (progress_hook d now s) (hookKey d)).isSome) := by
  refine ⟨⟨fun i hi => by simp [hookKey, hi], fun hn => by simp [hookKey, hn]⟩,
    fun hne => ⟨?_, ?_⟩⟩
  · unfold progress_hook
    rw [if_pos hst]
    exact Store.get_set_ne _ _ _ _ hne
  · unfold progress_hook
    rw [if_pos hst]
    rw [Store.get_set_self]
    rfl

/-- C10 witness: an event without info_dict lands under the literal key
unknown and leaves the record of the requested URL untouched. -/
theorem progress_hook_uses_webpage_url_witness :
    hookKey cexEvent = "unknown" ∧
    Store.get? (progress_hook cexEvent 7 cexStore) "https://x/y" =
      Store.get? cexStore "https://x/y" ∧
    (Store.get? (progress_hook cexEvent 7 cexStore) (hookKey cexEvent)).isSome := by
  have h := progress_hook_uses_webpage_url cexEvent 7 cexStore "https://x/y" rfl
  have hne : hookKey cexEvent ≠ "https://x/y" := by decide
  exact ⟨h.1.2 rfl, (h.2 hne).1, (h.2 hne).2⟩

/-- Record written on request acceptance (app.py line 150): a fresh
dictionary with progress 0 and the current time; the other fields are
absent from the source dictionary and read back as 0. -/
def resetWrite (s : Store) (k : String) (now : ℚ) : Store :=
  Store.set s k ⟨0, now, 0, 0, 0, 0⟩

/-- Copy of a record with only its progress field changed, mirroring the
in-place item assignment on a Python dict. -/
def setProgressField (r : ProgressRecord) (p : ℚ) : ProgressRecord :=
  ⟨p, r.timestamp, r.downloaded_bytes, r.total_bytes, r.speed, r.eta⟩

/-- Completion write (app.py line 188): download_progress[video_url] on a
defaultdict fetches the record, creating the factory default with the
current time when the key is absent, and then only its progress item is
assigned 100; no other field of an existing record is touched. -/
def completionWrite (s : Store) (k : String) (now : ℚ) : Store :=
  match Store.get? s k with
  | some r => Store.set s k (setProgressField r 100)
  | none => Store.set s k (setProgressField ⟨0, now, 0, 0, 0, 0⟩ 100)

/-- Store with one record whose timestamp 5 predates the completion
write. -/
def staleStore : Store := [("u", ⟨50, 5, 0, 0, 0, 0⟩)]

/-- C5 counterexample: the completion write at time 30 on a record whose
timestamp is 5 leaves the timestamp at 5, so this write does not refresh
the timestamp to the current time of the write. -/
theorem completionWrite_timestamp_cex :
    (Store.get? (completionWrite staleStore "u" 30) "u").map
      ProgressRecord.timestamp = some 5 ∧ (5 : ℚ) ≠ 30 := by
  constructor
  · rfl
  · norm_num

/-- C5 amended: the reset write and every downloading hook write stamp
the record with the current time, while the completion write only sets
the progress field to 100 and keeps every other field, the timestamp
included, of an existing record. -/
theorem write_timestamp_discipline (s : Store) (k : String) (now : ℚ)
    (d : HookEvent) :
    ((Store.get? (resetWrite s k now) k).map ProgressRecord.timestamp = some now) ∧
    (d.status = "downloading" →
      (Store.get? (progress_hook d now s) (hookKey d)).map
        ProgressRecord.timestamp = some now) ∧
    (∀ r, Store.get? s k = some r →
      Store.get? (completionWrite s k now) k = some (setProgressField r 100)) := by
  refine ⟨?_, fun hst => ?_, fun r hr => ?_⟩
  · rw [resetWrite, Store.get_set_self]
    rfl
  · unfold progress_hook
    rw [if_pos hst, Store.get_set_self]
    rfl
  · rw [completionWrite, hr, Store.get_set_self]

/-- C5 amended witness at concrete inputs: the reset and a hook write
carry the time of the write, the completion write keeps the stored
record apart from its progress field. -/
theorem write_timestamp_discipline_witness :
    ((Store.get? (resetWrite staleStore "u" 30) "u").map
      ProgressRecord.timestamp = some 30) ∧
    ((Store.get? (progress_hook cexEvent 30 staleStore) (hookKey cexEvent)).map
      ProgressRecord.timestamp = some 30) ∧
    Store.get? (completionWrite staleStore "u" 30) "u" =
      some (setProgressField ⟨50, 5, 0, 0, 0, 0⟩ 100) := by
  have h := write_timestamp_discipline staleStore "u" 30 cexEvent
  exact ⟨h.1, h.2.1 rfl, h.2.2 ⟨50, 5, 0, 0, 0, 0⟩ rfl⟩

theorem Store.get_foldl_set_last (k : String) (ws : List ProgressRecord) :
    ∀ s : Store, ws ≠ [] →
      Store.get? (ws.foldl (fun st r => Store.set st k r) s) k = ws.getLast? := by
  induction ws with
  | nil => intro s h; exact absurd rfl h
  | cons r rest ih =>
      intro s _
      cases rest with
      | nil => simpa [List.foldl] using Store.get_set_self s k r
      | cons r' t =>
          rw [List.foldl_cons, List.getLast?_cons_cons]
          exact ih (Store.set s k r) (by simp)

/-- C6: accepting a request overwrites the record under the requested
URL with exactly progress 0 and the current time, and the store is
last-writer-wins: after any nonempty sequence of assignments to one key
a lookup returns the value of the last assignment. -/
theorem reset_and_last_writer_wins (s : Store) (k : String) (now : ℚ) :
    Store.get? (resetWrite s k now) k = some ⟨0, now, 0, 0, 0, 0⟩ ∧
    ∀ ws : List ProgressRecord, ws ≠ [] →
      Store.get? (ws.foldl (fun st r => Store.set st k r) s) k = ws.getLast? :=
  ⟨Store.get_set_self s k _, fun ws h => Store.get_foldl_set_last k ws s h⟩

/-- C6 witness: a concrete reset over a nonempty store and a concrete
two-element write sequence. -/
theorem reset_and_last_writer_wins_witness :
    (Store.get? (resetWrite staleStore "u" 30) "u" = some ⟨0, 30, 0, 0, 0, 0⟩) ∧
    Store.get? (([⟨1, 2, 0, 0, 0, 0⟩, ⟨3, 4, 0, 0, 0, 0⟩] :
        List ProgressRecord).foldl (fun st r => Store.set st "u" r) staleStore) "u" =
      ([⟨1, 2, 0, 0, 0, 0⟩, ⟨3, 4, 0, 0, 0, 0⟩] : List ProgressRecord).getLast? :=
  ⟨(reset_and_last_writer_wins staleStore "u" 30).1,
   (reset_and_last_writer_wins staleStore "u" 30).2 _ (by simp)⟩

/-- One entry of the formats list returned by the probe; the source
reads format_id directly and format_note through .get with default the
empty string (app.py line 129). -/
structure Format where
  format_id : String
  format_note : Option String
deriving Repr, DecidableEq

/-- Membership test of app.py line 129: the lowercase format_note
contains the substring audio; the str.lower call is modelled as
per-character lowering. -/
def isAudioFormat (f : Format) : Bool :=
  decide ("audio".data <:+: (f.format_note.getD "").data.map Char.toLower)

/-- The list comprehension of app.py lines 128-130: format_id of every
format whose note mentions audio, in enumeration order. -/
def availableAudioFormats (formats : List Format) : List String :=
  (formats.filter isAudioFormat).map Format.format_id

/-- Fixed bitrate table of app.py line 133. -/
def bitrate_map (q : String) : Option String :=
  if q = "128k" then some "140"
  else if q = "192k" then some "251"
  else if q = "320k" then some "256"
  else none

/-- Resolution logic of find_best_audio_format (app.py lines 125-136),
with the probe result passed in as the formats list: the table entry
when it is available, else the last enumerated audio format, else the
generic selector. -/
def find_best_audio_format (formats : List Format) (preferred_quality : String) :
    String :=
  let available_formats := availableAudioFormats formats
  match bitrate_map preferred_quality with
  | some fid =>
      if available_formats.contains fid then fid
      else available_formats.getLast?.getD "bestaudio/best"
  | none => available_formats.getLast?.getD "bestaudio/best"

/-- C4: the resolver returns the table entry for the requested quality
when that stream id is among the enumerated audio formats; otherwise the
last enumerated audio format; the generic selector when no audio format
is enumerable; and in particular quality 192k with stream 251 available
resolves to 251. -/
theorem find_best_audio_format_spec (formats : List Format) (q : String) :
    (∀ fid, bitrate_map q = some fid →
      (availableAudioFormats formats).contains fid = true →
      find_best_audio_format formats q = fid) ∧
    (availableAudioFormats formats = [] →
      find_best_audio_format formats q = "bestaudio/best") ∧
    ((∀ fid, bitrate_map q = some fid →
        (availableAudioFormats formats).contains fid = false) →
      find_best_audio_format formats q =
        (availableAudioFormats formats).getLast?.getD "bestaudio/best") ∧
    (q = "192k" → (availableAudioFormats formats).contains "251" = true →
      find_best_audio_format formats q = "251") := by
  have hfb : ∀ fid, bitrate_map q = some fid →
      (availableAudioFormats formats).contains fid = true →
      find_best_audio_format formats q = fid := by
    intro fid hmap hmem
    simp only [find_best_audio_format, hmap]
    rw [if_pos hmem]
  refine ⟨hfb, fun hemp => ?_, fun hmiss => ?_, fun hq hmem => ?_⟩
  · cases hmap : bitrate_map q with
    | none => simp [find_best_audio_format, hmap, hemp]
    | some fid => simp [find_best_audio_format, hmap, hemp]
  · cases hmap : bitrate_map q with
    | none => simp [find_best_audio_format, hmap]
    | some fid =>
        simp only [find_best_audio_format, hmap]
        rw [if_neg]
        rw [hmiss fid hmap]
        exact Bool.false_ne_true
  · subst hq
    exact hfb "251" rfl hmem

/-- Formats list offering stream 251 as an audio format. -/
def fmts251 : List Format :=
  [⟨"251", some "audio only"⟩, ⟨"137", some "1080p"⟩]

/-- C4 witness: with stream 251 enumerated as audio, quality 192k
resolves to 251, and the other conjuncts are discharged at the same
concrete inputs. -/
theorem find_best_audio_format_spec_witness :
    find_best_audio_format fmts251 "192k" = "251" :=
  (find_best_audio_format_spec fmts251 "192k").2.2.2 rfl (by decide)

/-- Response of the progress endpoint (app.py lines 105-122): either the
missing-URL rejection or the JSON body of the five numeric fields. -/
inductive ProgressResponse where
  | badRequest (error : String)
  | ok (progress : ℚ) (downloaded_bytes : ℕ) (total_bytes : ℕ) (speed : ℚ) (eta : ℚ)
deriving Repr, DecidableEq

/-- The check_progress route (app.py lines 105-122): reject a falsy URL
with status 400, otherwise answer 200 from the stored record, with the
dictionary default carrying progress 0 and every .get defaulting to 0
when the key was never written. -/
def check_progress (s : Store) (url : Option String) : ProgressResponse :=
  let video_url := url.getD ""
  if video_url = "" then .badRequest "No URL provided"
  else
    match Store.get? s video_url with
    | some r => .ok r.progress r.downloaded_bytes r.total_bytes r.speed r.eta
    | none => .ok 0 0 0 0 0

/-- C7: for a nonempty URL that was never written, the progress lookup
answers 200 with progress 0 and downloaded_bytes, total_bytes, speed and
eta all 0; it never fails. -/
theorem check_progress_default (s : Store) (u : String) (hne : u ≠ "")
    (habs : Store.get? s u = none) :
    check_progress s (some u) = .ok 0 0 0 0 0 := by
  simp [check_progress, hne, habs]

/-- C7 witness: a never-written key over a concrete store. -/
theorem check_progress_default_witness :
    check_progress staleStore (some "https://x/y") = .ok 0 0 0 0 0 :=
  check_progress_default staleStore "https://x/y" (by decide) (by decide)

/-- Observable behaviour of one janitor task: how long it sleeps before
acting, how many removal attempts it makes, and whether an exception
escapes it. -/
structure JanitorRun where
  delaySeconds : ℕ
  removeAttempts : ℕ
  raised : Option String
deriving Repr, DecidableEq

/-- The delayed_delete task (app.py lines 71-77): sleep 60 seconds, try
os.remove once, and catch any exception, printing either outcome; the
outcome of the removal attempt is passed in. -/
def delayed_delete (removeResult : Except String Unit) : JanitorRun :=
  match removeResult with
  | .ok _ => ⟨60, 1, none⟩
  | .error _ => ⟨60, 1, none⟩

/-- C9: every scheduled deletion waits exactly 60 seconds, makes exactly
one removal attempt, and propagates no error whatever the removal
outcome, so failures are swallowed and never retried. -/
theorem delayed_delete_spec (removeResult : Except String Unit) :
    (delayed_delete removeResult).delaySeconds = 60 ∧
    (delayed_delete removeResult).removeAttempts = 1 ∧
    (delayed_delete removeResult).raised = none := by
  cases removeResult <;> exact ⟨rfl, rfl, rfl⟩

/-- Result dictionary of the main extract_info call: presence of the
entries key marks a playlist, and each entry may be None; an entry (and
the whole info for a single video) is abstracted to the token that
prepare_filename is applied to. -/
structure FetchInfo where
  entries : Option (List (Option String))
  selfEntry : String
deriving Repr, DecidableEq

/-- Observable outcome of one call of the download route: the 400
rejection, a caught 500 JSON error, a streamed file, the playlist JSON,
or an exception that escaped the handler. -/
inductive DownloadResponse where
  | badRequest (error : String)
  | json500 (error : String)
  | fileResponse (path : String)
  | playlistOk (message : String) (files : List String)
  | uncaught (error : String)
deriving Repr, DecidableEq

/-- Model of os.path.basename for the slash-separated paths the program
builds: the component after the last separator. -/
def pathBasename (p : String) : String :=
  ((p.splitOn "/").getLast?).getD ""

/-- Model of os.path.join for a relative second component with no
trailing separator on the first. -/
def pathJoin (dir file : String) : String := dir ++ "/" ++ file

/-- The playlist loop of app.py lines 191-199: skip falsy entries, build
each expected path from the basename of prepare_filename, and collect
the basenames of the files that exist, in order. -/
def collectPlaylistFiles (entries : List (Option String))
    (prepare : String → String) (downloads : String)
    (fexists : String → Bool) : List String :=
  entries.foldl (fun acc e =>
    match e with
    | none => acc
    | some entry =>
        let filename := prepare entry
        let filepath := pathJoin downloads (pathBasename filename)
        if fexists filepath then acc ++ [pathBasename filepath] else acc) []

/-- Modelled from the words of the spec for comparison: the artifact
names of exactly those playlist entries whose produced file exists, in
enumeration order. -/
def specPlaylistFiles (entries : List (Option String))
    (prepare : String → String) (downloads : String)
    (fexists : String → Bool) : List String :=
  (entries.filterMap id).filterMap (fun entry =>
    let filepath := pathJoin downloads (pathBasename (prepare entry))
    if fexists filepath then some (pathBasename filepath) else none)

/-- The playlist response of app.py lines 190-204: a 500 error when no
file was collected, otherwise the playlist message with the collected
names. -/
def playlistBranch (entries : List (Option String))
    (prepare : String → String) (downloads : String)
    (fexists : String → Bool) : DownloadResponse :=
  let downloaded_files := collectPlaylistFiles entries prepare downloads fexists
  if downloaded_files = [] then .json500 "No valid files found!"
  else .playlistOk "Playlist downloaded!" downloaded_files

theorem collectPlaylistFiles_eq_spec (entries : List (Option String))
    (prepare : String → String) (downloads : String)
    (fexists : String → Bool) :
    collectPlaylistFiles entries prepare downloads fexists =
      specPlaylistFiles entries prepare downloads fexists := by
  suffices h : ∀ acc : List String,
      entries.foldl (fun acc e =>
        match e with
        | none => acc
        | some entry =>
            let filename := prepare entry
            let filepath := pathJoin downloads (pathBasename filename)
            if fexists filepath then acc ++ [pathBasename filepath] else acc) acc =
      acc ++ specPlaylistFiles entries prepare downloads fexists by
    simpa using h []
  induction entries with
  | nil => intro acc; simp [specPlaylistFiles]
  | cons e rest ih =>
      intro acc
      cases e with
      | none => simp [specPlaylistFiles, List.foldl_cons, ih acc]
      | some entry =>
          by_cases hf : fexists (pathJoin downloads (pathBasename (prepare entry)))
          · simp [specPlaylistFiles, List.foldl_cons, hf, ih]
          · simp [specPlaylistFiles, List.foldl_cons, hf, ih]

/-- C8: the playlist response carries exactly the artifact names of the
entries whose produced file exists, and is the 500 error exactly when
that list is empty. -/
theorem playlistBranch_spec (entries : List (Option String))
    (prepare : String → String) (downloads : String)
    (fexists : String → Bool) :
    playlistBranch entries prepare downloads fexists =
      if specPlaylistFiles entries prepare downloads fexists = [] then
        DownloadResponse.json500 "No valid files found!"
      else
        DownloadResponse.playlistOk "Playlist downloaded!"
          (specPlaylistFiles entries prepare downloads fexists) := by
  rw [playlistBranch, collectPlaylistFiles_eq_spec]

/-- Body of the try block of download_video (app.py lines 183-225): the
hook events delivered by the collaborator update the store first; a
raised error is caught and answered as a 500 JSON with the message of
the exception; on success the completion write runs, then either the
playlist branch or the single-file resolution with the mp3 extension
probe. -/
def runFetchBranch (s1 : Store) (video_url : String)
    (format_type : Option String) (hookEvents : List (HookEvent × ℚ))
    (fetch : Except String FetchInfo) (nowDone : ℚ)
    (prepare : String → String) (downloads : String)
    (fexists : String → Bool) : DownloadResponse × Store :=
  let sH := hookEvents.foldl (fun st e => progress_hook e.1 e.2 st) s1
  match fetch with
  | .error e => (.json500 e, sH)
  | .ok info =>
      let s2 := completionWrite sH video_url nowDone
      match info.entries with
      | some entries => (playlistBranch entries prepare downloads fexists, s2)
      | none =>
          let filename := prepare info.selfEntry
          let filepath := pathJoin downloads (pathBasename filename)
          let filepath2 :=
            if format_type = some "mp3" then
              let mp3_filepath :=
                (filepath.replace ".webm" ".mp3").replace ".m4a" ".mp3"
              if fexists mp3_filepath then mp3_filepath else filepath
            else filepath
          if fexists filepath2 then (.fileResponse filepath2, s2)
          else (.json500 "File not found!", s2)

/-- The download route (app.py lines 139-229). External effects are
inputs: probe is the outcome of the extract_info call made by
find_best_audio_format before the try block on the mp3 path, hookEvents
are the progress events delivered while downloading, fetch is the
outcome of the guarded extract_info call, prepare stands for
prepare_filename and fexists for os.path.exists. The returned store
exposes every write to download_progress. -/
def download_video (s : Store) (now : ℚ) (url format_type : Option String)
    (quality : String) (probe : Except String (List Format))
    (hookEvents : List (HookEvent × ℚ)) (fetch : Except String FetchInfo)
    (nowDone : ℚ) (prepare : String → String) (downloads : String)
    (fexists : String → Bool) : DownloadResponse × Store :=
  let video_url := url.getD ""
  if video_url = "" then (.badRequest "No URL provided", s)
  else
    let s1 := resetWrite s video_url now
    if format_type = some "mp3" then
      match probe with
      | .error e => (.uncaught e, s1)
      | .ok formats =>
          let _best_audio_format := find_best_audio_format formats quality
          runFetchBranch s1 video_url format_type hookEvents fetch nowDone
            prepare downloads fexists
    else
      runFetchBranch s1 video_url format_type hookEvents fetch nowDone
        prepare downloads fexists

/-- C3 counterexample: an mp3 request whose format probe raises. The
probe runs before the try block (app.py line 157 against line 183), so
the exception escapes the handler instead of being answered as a
500 JSON with the message. -/
theorem download_video_probe_uncaught_cex :
    (download_video [] 0 (some "https://x/y") (some "mp3") "192k"
        (.error "boom") [] (.error "boom") 1 id "downloads"
        (fun _ => false)).1 = .uncaught "boom" ∧
    DownloadResponse.uncaught "boom" ≠ DownloadResponse.json500 "boom" := by
  constructor
  · rfl
  · intro h
    cases h

/-- C3 amended: whenever the guarded fetch call raises (and, for an mp3
request, the earlier format probe did not), the route answers a 500 JSON
carrying the message of the exception verbatim, and the store of the
result is exactly the reset record followed by the hook updates that had
already arrived: the error path itself writes nothing further, in
particular no completion write runs. -/
theorem download_video_error_caught (s : Store) (now : ℚ)
    (url format_type : Option String) (quality : String)
    (probe : Except String (List Format)) (hookEvents : List (HookEvent × ℚ))
    (e : String) (nowDone : ℚ) (prepare : String → String)
    (downloads : String) (fexists : String → Bool)
    (hurl : url.getD "" ≠ "")
    (hprobe : format_type = some "mp3" → ∃ formats, probe = .ok formats) :
    download_video s now url format_type quality probe hookEvents
        (.error e) nowDone prepare downloads fexists =
      (.json500 e,
       hookEvents.foldl (fun st ev => progress_hook ev.1 ev.2 st)
         (resetWrite s (url.getD "") now)) := by
  unfold download_video
  rw [if_neg hurl]
  by_cases hmp3 : format_type = some "mp3"
  · obtain ⟨formats, hp⟩ := hprobe hmp3
    rw [if_pos hmp3, hp]
    rfl
  · rw [if_neg hmp3]
    rfl

/-- C3 amended witness: a video request whose fetch raises is answered
with the message verbatim and no write beyond the reset. -/
theorem download_video_error_caught_witness :
    download_video [] 0 (some "https://x/y") (some "mp4") "720"
        (.error "unused") [] (.error "boom") 1 id "downloads"
        (fun _ => false) =
      (.json500 "boom",
       ([] : List (HookEvent × ℚ)).foldl (fun st ev => progress_hook ev.1 ev.2 st)
         (resetWrite [] "https://x/y" 0)) :=
  download_video_error_caught [] 0 (some "https://x/y") (some "mp4") "720"
    (.error "unused") [] "boom" 1 id "downloads" (fun _ => false)
    (by decide) (fun h => absurd h (by decide))

end Ytcomet
